import Mathlib

/-!
Formal model of the `hls_keyinfo` Go package (`keyinfo.go`).

Modelling conventions:
* A Go `string` is an immutable byte sequence; we model it as `List Nat`
  (one entry per byte). `len` on a Go string is the byte count, which is
  `List.length` here. The string literal helper `goStr` maps an ASCII
  Lean string literal to its byte list.
* A Go `[]byte` slice value is a `List Nat`; the `nil` slice is `none`
  in an `Option (List Nat)`. Slice aliasing (needed for the `GetKey`
  copy contract) is modelled separately with an explicit buffer heap.
* The filesystem is a map from paths to file contents,
  `FS := GoStr → Option (List Nat)`.
* `crypto/rand` is modelled by a byte stream `Nat → Nat` (each value
  taken mod 256) together with a success flag; `rand.Read` on a buffer
  of length n draws the first n stream bytes.
* An `io.Writer` is modelled as a `Sink`: it accumulates the bytes it
  accepts, and an optional capacity bounds how many further bytes it
  accepts before failing (a failing write consumes the remaining
  capacity and reports an error, matching a writer that fails after a
  partial write). `cap = none` is a writer that never fails.
-/

set_option autoImplicit false

namespace HLSKeyInfo

/-- Go strings are byte sequences. -/
abbrev GoStr := List Nat

/-- Byte list of an ASCII Lean string literal. -/
def goStr (s : String) : GoStr := s.data.map Char.toNat

/-- Filesystem: path to file contents, `none` when the file is absent. -/
abbrev FS := GoStr → Option (List Nat)

/-- Update the filesystem at one path. -/
def FS.update (fs : FS) (p : GoStr) (v : Option (List Nat)) : FS :=
  fun q => if q = p then v else fs q

/-- The `KeyInfo` struct of `keyinfo.go`: exported fields `URL`,
`KeyFile`, `IV` and unexported `key` (a byte slice, `none` = nil) and
`infoFile`. Zero values of string fields are the empty byte list. -/
structure KeyInfo where
  URL : GoStr
  KeyFile : GoStr
  IV : GoStr
  key : Option (List Nat)
  infoFile : GoStr
  deriving DecidableEq, Repr

/-- A byte sink modelling an `io.Writer`: `received` is everything the
writer has accepted so far, `cap` an optional budget of further bytes it
will accept before erroring. -/
structure Sink where
  received : List Nat
  cap : Option Nat
  deriving DecidableEq, Repr

/-- One `Write(p)` call on the sink: returns the accepted byte count,
the new sink state, and the error flag. With `cap = some c` and
`p.length > c` the writer accepts the first `c` bytes and errors, so a
failed write may have consumed bytes. -/
def Sink.write (s : Sink) (p : List Nat) : Nat × Sink × Bool :=
  match s.cap with
  | none => (p.length, ⟨s.received ++ p, none⟩, false)
  | some c =>
    if p.length ≤ c then (p.length, ⟨s.received ++ p, some (c - p.length)⟩, false)
    else (c, ⟨s.received ++ p.take c, some 0⟩, true)

/-- The `WriteTo` method (`keyinfo.go` lines 145-180): writes
`URL ++ "\n"`, then `KeyFile ++ "\n"`, then `IV ++ "\n"` when `IV` is
non-empty. On a write error it returns `written` accumulated so far —
note the Go code returns before adding the partial count of the
failing call. Result is `(written, sink, errored)`. -/
def WriteTo (k : KeyInfo) (s : Sink) : Nat × Sink × Bool :=
  match Sink.write s (k.URL ++ [10]) with
  | (_, s1, true) => (0, s1, true)
  | (w1, s1, false) =>
    match Sink.write s1 (k.KeyFile ++ [10]) with
    | (_, s2, true) => (w1, s2, true)
    | (w2, s2, false) =>
      if k.IV = [] then (w1 + w2, s2, false)
      else
        match Sink.write s2 (k.IV ++ [10]) with
        | (_, s3, true) => (w1 + w2, s3, true)
        | (w3, s3, false) => (w1 + w2 + w3, s3, false)

/-- The exact byte sequence `WriteTo` emits on a non-failing sink. -/
def outBytes (k : KeyInfo) : List Nat :=
  k.URL ++ [10] ++ k.KeyFile ++ [10] ++ (if k.IV = [] then [] else k.IV ++ [10])

/-- The 16 bytes `rand.Read` places into a fresh 16-byte buffer when the
secure random source, modelled by the stream, succeeds. -/
def rand16 (stream : Nat → Nat) : List Nat :=
  (List.range 16).map fun i => stream i % 256

/-- The `NewKeyInfo` constructor (`keyinfo.go` lines 24-53). World
parameters: `randOk`/`stream` model `crypto/rand`, `tempPath` the fresh
name `os.CreateTemp` picks (`none` = creation fails), `writeOk` whether
the key write succeeds. `os.CreateTemp` creates the file empty; on write
failure the file is removed (`os.Remove`) before the error returns.
Result: the constructed descriptor (`none` on error) and the final
filesystem. -/
def NewKeyInfo (url : GoStr) (randOk : Bool) (stream : Nat → Nat)
    (tempPath : Option GoStr) (writeOk : Bool) (fs : FS) :
    Option KeyInfo × FS :=
  if randOk = false then (none, fs)
  else
    let key := rand16 stream
    match tempPath with
    | none => (none, fs)
    | some p =>
      let fs1 := FS.update fs p (some [])
      if writeOk then
        (some ⟨url, p, [], some key, []⟩, FS.update fs1 p (some key))
      else
        (none, FS.update fs1 p none)

/-- The `GetKey` method (`keyinfo.go` lines 56-61), value level: `nil`
key gives `nil`; otherwise `slices.Clone` returns a fresh buffer whose
contents equal the internal key. Aliasing is treated in the heap model
below. -/
def GetKey (k : KeyInfo) : Option (List Nat) :=
  match k.key with
  | none => none
  | some b => some b

/-- The `SetIV` method (`keyinfo.go` lines 64-67). -/
def SetIV (k : KeyInfo) (iv : GoStr) : KeyInfo :=
  { k with IV := iv }

/-- The `SetKeyFile` method (`keyinfo.go` lines 70-73). -/
def SetKeyFile (k : KeyInfo) (keyFile : GoStr) : KeyInfo :=
  { k with KeyFile := keyFile }

/-- Byte of the lowercase hexadecimal digit for `d < 16`:
`'0'..'9'` are 48-57, `'a'..'f'` are 97-102. -/
def hexDigitByte (d : Nat) : Nat :=
  if d < 10 then 48 + d else 87 + d

/-- Lowercase hexadecimal encoding of a byte list, two digits per byte,
as produced by `fmt.Sprintf` with the `%x` verb (for 16 bytes the
`%032x` zero-padding to width 32 is already met). -/
def hexEncode : List Nat → GoStr
  | [] => []
  | b :: bs => hexDigitByte (b / 16 % 16) :: hexDigitByte (b % 16) :: hexEncode bs

/-- The `RandIV` method (`keyinfo.go` lines 76-86): on random-source
failure the IV becomes the literal all-zero 32-character string
(32 copies of byte 48, i.e. `'0'`); on success the lowercase hex
encoding of 16 fresh random bytes. Never an error. -/
def RandIV (k : KeyInfo) (randOk : Bool) (stream : Nat → Nat) : KeyInfo :=
  if randOk = false then
    { k with IV := List.replicate 32 48 }
  else
    { k with IV := hexEncode (rand16 stream) }

/-- Outcome of one `os.Remove` call. -/
inductive RmResult where
  | ok
  | notExist
  | otherErr
  deriving DecidableEq, Repr

/-- Model of `os.Remove`: an absent file yields the `IsNotExist` error;
an existing file is removed unless the oracle `bad` marks the path as
failing for another reason (e.g. permissions), in which case the file
stays and a non-`IsNotExist` error is reported. -/
def osRemove (fs : FS) (bad : GoStr → Bool) (p : GoStr) : FS × RmResult :=
  match fs p with
  | none => (fs, RmResult.notExist)
  | some _ =>
    if bad p then (fs, RmResult.otherErr)
    else (FS.update fs p none, RmResult.ok)

/-- One tracked-file cleanup step of `Dispose`: skip an untracked
(empty) path, otherwise remove it and record the path as failed exactly
when `os.Remove` errors for a reason other than absence
(`err != nil && !os.IsNotExist(err)`). -/
def removeTracked (fs : FS) (bad : GoStr → Bool) (p : GoStr) :
    FS × List GoStr :=
  if p = [] then (fs, [])
  else
    match osRemove fs bad p with
    | (fs1, RmResult.otherErr) => (fs1, [p])
    | (fs1, _) => (fs1, [])

/-- The `Dispose` method (`keyinfo.go` lines 89-113): removes `KeyFile`
then `infoFile` when tracked, clears each field regardless of the
removal outcome (the Go code clears inside each `if` block; an
untracked field is already empty, so clearing both at the end is the
same state), collects every non-`IsNotExist` error in order, and fails
— a single aggregated error in the Go code — exactly when that list is
non-empty. -/
def Dispose (fs : FS) (bad : GoStr → Bool) (k : KeyInfo) :
    FS × KeyInfo × List GoStr :=
  match removeTracked fs bad k.KeyFile with
  | (fs1, errs1) =>
    match removeTracked fs1 bad k.infoFile with
    | (fs2, errs2) =>
      (fs2, { k with KeyFile := [], infoFile := [] }, errs1 ++ errs2)

/-- The `WriteToTempFile` method (`keyinfo.go` lines 117-142). The Go
code joins `os.TempDir()` with the literal file name
`"hls_keyinfo_*.txt"` (the `*` is not expanded — no `os.CreateTemp`
here), opens it with `O_CREATE|O_WRONLY|O_TRUNC` (modelled by `openOk`),
writes the descriptor via `WriteTo` into the truncated file (the file
failure budget of that write is `writeCap`; `none` never fails), and records
`infoFile` only on success. `filepath.Join` on a clean directory and a
simple name is `dir ++ "/" ++ name`. Result: returned path (`none` on
error), updated descriptor, final filesystem. -/
def WriteToTempFile (tempDir : GoStr) (fs : FS) (openOk : Bool)
    (writeCap : Option Nat) (k : KeyInfo) : Option GoStr × KeyInfo × FS :=
  match k.key with
  | none => (none, k, fs)
  | some _ =>
    let filePath := tempDir ++ goStr "/" ++ goStr "hls_keyinfo_*.txt"
    if openOk = false then (none, k, fs)
    else
      match WriteTo k ⟨[], writeCap⟩ with
      | (_, s, true) => (none, k, FS.update fs filePath (some s.received))
      | (_, s, false) =>
        (some filePath, { k with infoFile := filePath },
          FS.update fs filePath (some s.received))

/-- A byte is a lowercase hexadecimal character: `'0'..'9'` (48-57) or
`'a'..'f'` (97-102). -/
def isHexLowerByte (b : Nat) : Bool :=
  (48 ≤ b && b ≤ 57) || (97 ≤ b && b ≤ 102)

/-- Spec-side characterization for the amended partial-write claim: the
total length of the line writes of `WriteTo` that complete in full
before a writer with failure budget `c` runs out — the budget left
after the earlier lines must cover a line entirely for its length to be
counted. -/
def completedCount (k : KeyInfo) (c : Nat) : Nat :=
  let l1 := k.URL.length + 1
  let l2 := k.KeyFile.length + 1
  if c < l1 then 0
  else if c - l1 < l2 then l1
  else if k.IV = [] then l1 + l2
  else if c - l1 - l2 < k.IV.length + 1 then l1 + l2
  else l1 + l2 + (k.IV.length + 1)

/-! ### Heap model of byte slices, for the `GetKey` copy contract

Go slices are references into mutable buffers. `Heap` maps references
(allocated below `next`) to buffer contents; `KeyInfoRef` is `KeyInfo`
with the `key` field holding a reference instead of a value. -/

/-- Heap of byte buffers: `buf r` is the contents of reference `r`;
references `≥ next` are unallocated. -/
structure Heap where
  buf : Nat → List Nat
  next : Nat

/-- In-place mutation of the buffer behind reference `r`. -/
def Heap.write (h : Heap) (r : Nat) (v : List Nat) : Heap :=
  ⟨fun q => if q = r then v else h.buf q, h.next⟩

/-- Variant of `KeyInfo` with the `key` slice as a heap reference (`none` = nil). -/
structure KeyInfoRef where
  URL : GoStr
  KeyFile : GoStr
  IV : GoStr
  key : Option Nat
  infoFile : GoStr

/-- The `GetKey` method over the heap model: a nil key returns nil and
leaves the heap alone; otherwise `slices.Clone` allocates a fresh
buffer (`h.next`) holding a copy of the key bytes and returns the fresh
reference. -/
def GetKeyH (h : Heap) (k : KeyInfoRef) : Option Nat × Heap :=
  match k.key with
  | none => (none, h)
  | some r =>
    (some h.next, ⟨fun q => if q = h.next then h.buf r else h.buf q, h.next + 1⟩)

/-! ### Helper lemmas -/

theorem write_unlimited (rc : List Nat) (p : List Nat) :
    Sink.write ⟨rc, none⟩ p = (p.length, ⟨rc ++ p, none⟩, false) := rfl

theorem write_limited (rc : List Nat) (c : Nat) (p : List Nat) :
    Sink.write ⟨rc, some c⟩ p =
      if p.length ≤ c then (p.length, ⟨rc ++ p, some (c - p.length)⟩, false)
      else (c, ⟨rc ++ p.take c, some 0⟩, true) := rfl

theorem outBytes_length (k : KeyInfo) :
    (outBytes k).length =
      k.URL.length + 1 + (k.KeyFile.length + 1) +
        (if k.IV = [] then 0 else k.IV.length + 1) := by
  by_cases hIV : k.IV = [] <;> simp [outBytes, hIV] <;> omega

theorem take_append_ge (a b : List Nat) (n : Nat) (h : a.length ≤ n) :
    (a ++ b).take n = a ++ b.take (n - a.length) := by
  rw [List.take_append_eq_append_take, List.take_of_length_le h]

theorem take_append_le (a b : List Nat) (n : Nat) (h : n ≤ a.length) :
    (a ++ b).take n = a.take n := by
  rw [List.take_append_eq_append_take, Nat.sub_eq_zero_of_le h,
    List.take_zero, List.append_nil]

theorem outBytes_assoc (k : KeyInfo) :
    outBytes k =
      (k.URL ++ [10]) ++ ((k.KeyFile ++ [10]) ++
        (if k.IV = [] then [] else k.IV ++ [10])) := by
  simp [outBytes, List.append_assoc]

/-! ### The claims -/

/-- C1: on a sink that never fails, `WriteTo` appends to the sink
exactly `URL ++ "\n" ++ KeyFile ++ "\n"` followed by `IV ++ "\n"`
exactly when `IV` is non-empty, reporting that byte count and no error;
when the three fields contain no newline byte themselves, the output
contains exactly two newlines with `IV` empty and exactly three
otherwise, and the very last byte is the final newline (nothing
follows it). -/
theorem WriteTo_format (k : KeyInfo) (r0 : List Nat)
    (hu : 10 ∉ k.URL) (hf : 10 ∉ k.KeyFile) (hi : 10 ∉ k.IV) :
    WriteTo k ⟨r0, none⟩ =
      ((outBytes k).length, ⟨r0 ++ outBytes k, none⟩, false) ∧
    (outBytes k).count 10 = (if k.IV = [] then 2 else 3) ∧
    (outBytes k).getLast? = some 10 := by
  refine ⟨?_, ?_, ?_⟩
  · by_cases hIV : k.IV = [] <;>
      simp [WriteTo, write_unlimited, outBytes, hIV, List.append_assoc] <;>
      omega
  · by_cases hIV : k.IV = [] <;>
      simp [outBytes, hIV, List.count_append, List.count_eq_zero.mpr hu,
        List.count_eq_zero.mpr hf, List.count_eq_zero.mpr hi]
  · by_cases hIV : k.IV = []
    · simp only [outBytes, hIV, if_pos, List.append_nil]
      exact List.getLast?_concat _
    · simp only [outBytes, if_neg hIV, ← List.append_assoc]
      exact List.getLast?_concat _

theorem WriteTo_format_witness :
    WriteTo ⟨[97], [98], [99], none, []⟩ ⟨[], none⟩ =
      ((outBytes ⟨[97], [98], [99], none, []⟩).length,
        ⟨[] ++ outBytes ⟨[97], [98], [99], none, []⟩, none⟩, false) ∧
    (outBytes ⟨[97], [98], [99], none, []⟩).count 10 =
      (if ([99] : GoStr) = [] then 2 else 3) ∧
    (outBytes ⟨[97], [98], [99], none, []⟩).getLast? = some 10 :=
  WriteTo_format ⟨[97], [98], [99], none, []⟩ [] (by decide) (by decide)
    (by decide)

/-- C2: a successful `NewKeyInfo url` yields a descriptor whose key is
exactly the first 16 bytes of the secure random stream (so 16 bytes
long), whose `URL` is the argument verbatim, whose `IV` starts empty,
and the created key file on disk contains exactly those 16 bytes. -/
theorem NewKeyInfo_success (url p : GoStr) (stream : Nat → Nat) (fs : FS) :
    (NewKeyInfo url true stream (some p) true fs).1 =
      some ⟨url, p, [], some (rand16 stream), []⟩ ∧
    (rand16 stream).length = 16 ∧
    (NewKeyInfo url true stream (some p) true fs).2 p = some (rand16 stream) := by
  refine ⟨rfl, ?_, ?_⟩
  · simp [rand16]
  · simp [NewKeyInfo, FS.update]

/-- C3: over the buffer heap, `GetKey` on a nil key returns nil; on a
valid key reference `r` it returns a freshly allocated reference,
distinct from `r`, holding a copy of the key bytes, and overwriting
that returned buffer with any value `v` leaves the internal key buffer
intact and a subsequent `GetKey` still returns a buffer holding the
original key bytes. -/
theorem GetKey_copy (h : Heap) (u f i inf : GoStr) (r : Nat)
    (v : List Nat) (hr : r < h.next) :
    (GetKeyH h ⟨u, f, i, none, inf⟩).1 = none ∧
    (GetKeyH h ⟨u, f, i, some r, inf⟩).1 = some h.next ∧
    h.next ≠ r ∧
    (GetKeyH h ⟨u, f, i, some r, inf⟩).2.buf h.next = h.buf r ∧
    (Heap.write (GetKeyH h ⟨u, f, i, some r, inf⟩).2 h.next v).buf r =
      h.buf r ∧
    (GetKeyH (Heap.write (GetKeyH h ⟨u, f, i, some r, inf⟩).2 h.next v)
        ⟨u, f, i, some r, inf⟩).1 = some (h.next + 1) ∧
    (GetKeyH (Heap.write (GetKeyH h ⟨u, f, i, some r, inf⟩).2 h.next v)
        ⟨u, f, i, some r, inf⟩).2.buf (h.next + 1) = h.buf r := by
  have hne : r ≠ h.next := Nat.ne_of_lt hr
  refine ⟨rfl, rfl, (Nat.ne_of_lt hr).symm, by simp [GetKeyH], ?_, rfl, ?_⟩
  · simp [GetKeyH, Heap.write, hne]
  · simp [GetKeyH, Heap.write, hne]

theorem GetKey_copy_witness :
    (GetKeyH ⟨fun q => if q = 0 then [1, 2] else [], 1⟩
        ⟨[], [], [], none, []⟩).1 = none ∧
    (GetKeyH ⟨fun q => if q = 0 then [1, 2] else [], 1⟩
        ⟨[], [], [], some 0, []⟩).1 =
      some (Heap.next ⟨fun q => if q = 0 then [1, 2] else [], 1⟩) ∧
    Heap.next ⟨fun q => if q = 0 then [1, 2] else [], 1⟩ ≠ 0 ∧
    (GetKeyH ⟨fun q => if q = 0 then [1, 2] else [], 1⟩
        ⟨[], [], [], some 0, []⟩).2.buf
        (Heap.next ⟨fun q => if q = 0 then [1, 2] else [], 1⟩) =
      Heap.buf ⟨fun q => if q = 0 then [1, 2] else [], 1⟩ 0 ∧
    (Heap.write
        (GetKeyH ⟨fun q => if q = 0 then [1, 2] else [], 1⟩
          ⟨[], [], [], some 0, []⟩).2
        (Heap.next ⟨fun q => if q = 0 then [1, 2] else [], 1⟩) [9]).buf 0 =
      Heap.buf ⟨fun q => if q = 0 then [1, 2] else [], 1⟩ 0 ∧
    (GetKeyH
        (Heap.write
          (GetKeyH ⟨fun q => if q = 0 then [1, 2] else [], 1⟩
            ⟨[], [], [], some 0, []⟩).2
          (Heap.next ⟨fun q => if q = 0 then [1, 2] else [], 1⟩) [9])
        ⟨[], [], [], some 0, []⟩).1 =
      some (Heap.next ⟨fun q => if q = 0 then [1, 2] else [], 1⟩ + 1) ∧
    (GetKeyH
        (Heap.write
          (GetKeyH ⟨fun q => if q = 0 then [1, 2] else [], 1⟩
            ⟨[], [], [], some 0, []⟩).2
          (Heap.next ⟨fun q => if q = 0 then [1, 2] else [], 1⟩) [9])
        ⟨[], [], [], some 0, []⟩).2.buf
        (Heap.next ⟨fun q => if q = 0 then [1, 2] else [], 1⟩ + 1) =
      Heap.buf ⟨fun q => if q = 0 then [1, 2] else [], 1⟩ 0 :=
  GetKey_copy ⟨fun q => if q = 0 then [1, 2] else [], 1⟩ [] [] [] [] 0 [9]
    (by decide)

theorem hexDigitByte_hex : ∀ d < 16, isHexLowerByte (hexDigitByte d) = true := by
  decide

theorem hexEncode_length (l : List Nat) : (hexEncode l).length = 2 * l.length := by
  induction l with
  | nil => rfl
  | cons b bs ih => simp [hexEncode, ih]; omega

theorem hexEncode_all_hex (l : List Nat) :
    (hexEncode l).all isHexLowerByte = true := by
  induction l with
  | nil => rfl
  | cons b bs ih =>
    simp only [hexEncode, List.all_cons, ih, Bool.and_true]
    rw [hexDigitByte_hex _ (Nat.mod_lt _ (by omega)),
      hexDigitByte_hex _ (Nat.mod_lt _ (by omega))]
    rfl

/-- C4: on every outcome of the random source, `RandIV` leaves the IV a
32-byte string of lowercase hex characters — the hex encoding of the 16
fresh random bytes on success, the literal all-zero string on failure —
never reports an error (it is total and returns the descriptor), and
changes no field other than `IV`. -/
theorem RandIV_hex (k : KeyInfo) (randOk : Bool) (stream : Nat → Nat) :
    (RandIV k randOk stream).IV.length = 32 ∧
    (RandIV k randOk stream).IV.all isHexLowerByte = true ∧
    (RandIV k randOk stream).IV =
      (if randOk = false then List.replicate 32 48
        else hexEncode (rand16 stream)) ∧
    (RandIV k randOk stream).URL = k.URL ∧
    (RandIV k randOk stream).KeyFile = k.KeyFile ∧
    (RandIV k randOk stream).key = k.key ∧
    (RandIV k randOk stream).infoFile = k.infoFile := by
  cases randOk
  · refine ⟨by simp [RandIV], ?_, rfl, rfl, rfl, rfl, rfl⟩
    show (List.replicate 32 48 : GoStr).all isHexLowerByte = true
    decide
  · refine ⟨?_, ?_, rfl, rfl, rfl, rfl, rfl⟩
    · simp [RandIV, hexEncode_length, rand16]
    · exact hexEncode_all_hex _

/-- C5: contrary to the claim of a uniquely-named file (random suffix),
`WriteToTempFile` joins the temp directory with the literal file name
`hls_keyinfo_*.txt` — the `*` is never expanded — so two descriptors
with distinct keys obtain the very same path `/tmp/hls_keyinfo_*.txt`.
This contradicts the doc comment of the function itself (file name from the hex
of the key, "ensuring uniqueness") and the test in the repository itself, which
requires distinct paths for distinct keys. -/
theorem WriteToTempFile_fixed_path :
    (WriteToTempFile (goStr "/tmp") (fun _ => none) true none
        ⟨goStr "u1", goStr "kf1", [], some (List.replicate 16 0), []⟩).1 =
      some (goStr "/tmp/hls_keyinfo_*.txt") ∧
    (WriteToTempFile (goStr "/tmp") (fun _ => none) true none
        ⟨goStr "u2", goStr "kf2", [], some (List.replicate 16 255), []⟩).1 =
      some (goStr "/tmp/hls_keyinfo_*.txt") ∧
    (List.replicate 16 0 : List Nat) ≠ List.replicate 16 255 := by
  refine ⟨by decide, by decide, by decide⟩

/-- C6, counterexample: a writer whose budget is 1 byte accepts 1 byte
of the first line `"ab\n"` and then fails; `WriteTo` returns a written
count of 0, not the 1 byte the sink actually accepted — the Go code
returns `written` before adding the partial count of the failing call. -/
theorem WriteTo_count_counterexample :
    (WriteTo ⟨[97, 98], [107], [], some (List.replicate 16 0), []⟩
        ⟨[], some 1⟩).2.1.received.length = 1 ∧
    (WriteTo ⟨[97, 98], [107], [], some (List.replicate 16 0), []⟩
        ⟨[], some 1⟩).1 = 0 ∧
    (0 : Nat) ≠ 1 := by
  refine ⟨by decide, by decide, by decide⟩

/-- C6, amended: on a writer with failure budget `c`, `WriteTo` returns
the total length of the line writes that completed in full — the bytes
a failing write partially pushed into the sink are not counted — while
the sink itself has accepted the first `c` bytes of the full output
(all of it when `c` suffices), and an error is reported exactly when
the budget is smaller than the full output. -/
theorem WriteTo_partial_count (k : KeyInfo) (c : Nat) (r0 : List Nat) :
    (WriteTo k ⟨r0, some c⟩).1 = completedCount k c ∧
    (WriteTo k ⟨r0, some c⟩).2.1.received = r0 ++ (outBytes k).take c ∧
    (WriteTo k ⟨r0, some c⟩).2.2 = decide ((outBytes k).length > c) := by
  have hl1 : (k.URL ++ [10]).length = k.URL.length + 1 := by simp
  have hl2 : (k.KeyFile ++ [10]).length = k.KeyFile.length + 1 := by simp
  have hl3 : (k.IV ++ [10]).length = k.IV.length + 1 := by simp
  by_cases h1 : (k.URL ++ [10]).length ≤ c
  · have h1n : k.URL.length + 1 ≤ c := by omega
    by_cases h2 : (k.KeyFile ++ [10]).length ≤ c - (k.URL ++ [10]).length
    · have h2n : k.KeyFile.length + 1 ≤ c - (k.URL.length + 1) := by
        rw [← hl1, ← hl2]; exact h2
      by_cases hIV : k.IV = []
      · -- URL and KeyFile lines both written in full; no IV line
        simp only [WriteTo, write_limited, if_pos h1, if_pos h2, if_pos hIV]
        refine ⟨?_, ?_, ?_⟩
        · show (k.URL ++ [10]).length + (k.KeyFile ++ [10]).length =
            completedCount k c
          simp only [completedCount, hl1, hl2]
          rw [if_neg (by omega), if_neg (by omega), if_pos hIV]
        · show (r0 ++ (k.URL ++ [10])) ++ (k.KeyFile ++ [10]) =
            r0 ++ (outBytes k).take c
          have hfull : (outBytes k).length ≤ c := by
            rw [outBytes_length, if_pos hIV]; omega
          rw [List.take_of_length_le hfull, outBytes_assoc, if_pos hIV,
            List.append_nil, List.append_assoc]
        · show false = decide ((outBytes k).length > c)
          rw [eq_comm, decide_eq_false_iff_not]
          rw [outBytes_length, if_pos hIV]; omega
      · by_cases h3 : (k.IV ++ [10]).length ≤
            c - (k.URL ++ [10]).length - (k.KeyFile ++ [10]).length
        · have h3n : k.IV.length + 1 ≤
              c - (k.URL.length + 1) - (k.KeyFile.length + 1) := by
            rw [← hl1, ← hl2, ← hl3]; exact h3
          -- all three lines written in full
          simp only [WriteTo, write_limited, if_pos h1, if_pos h2,
            if_neg hIV, if_pos h3]
          refine ⟨?_, ?_, ?_⟩
          · show (k.URL ++ [10]).length + (k.KeyFile ++ [10]).length +
              (k.IV ++ [10]).length = completedCount k c
            simp only [completedCount, hl1, hl2, hl3]
            rw [if_neg (by omega), if_neg (by omega), if_neg hIV,
              if_neg (by omega)]
          · show ((r0 ++ (k.URL ++ [10])) ++ (k.KeyFile ++ [10])) ++
              (k.IV ++ [10]) = r0 ++ (outBytes k).take c
            have hfull : (outBytes k).length ≤ c := by
              rw [outBytes_length, if_neg hIV]; omega
            rw [List.take_of_length_le hfull, outBytes_assoc, if_neg hIV]
            simp [List.append_assoc]
          · show false = decide ((outBytes k).length > c)
            rw [eq_comm, decide_eq_false_iff_not]
            rw [outBytes_length, if_neg hIV]; omega
        · have h3n : ¬(k.IV.length + 1 ≤
              c - (k.URL.length + 1) - (k.KeyFile.length + 1)) := by
            rw [← hl1, ← hl2, ← hl3]; exact h3
          -- the IV line write fails part-way
          simp only [WriteTo, write_limited, if_pos h1, if_pos h2,
            if_neg hIV, if_neg h3]
          refine ⟨?_, ?_, ?_⟩
          · show (k.URL ++ [10]).length + (k.KeyFile ++ [10]).length =
              completedCount k c
            simp only [completedCount, hl1, hl2]
            rw [if_neg (by omega), if_neg (by omega), if_neg hIV,
              if_pos (by omega)]
          · show ((r0 ++ (k.URL ++ [10])) ++ (k.KeyFile ++ [10])) ++
              (k.IV ++ [10]).take
                (c - (k.URL ++ [10]).length - (k.KeyFile ++ [10]).length) =
              r0 ++ (outBytes k).take c
            rw [outBytes_assoc, if_neg hIV,
              take_append_ge (k.URL ++ [10]) _ c h1,
              take_append_ge (k.KeyFile ++ [10]) _ _ h2]
            simp [List.append_assoc]
          · show true = decide ((outBytes k).length > c)
            rw [eq_comm, decide_eq_true_eq]
            rw [outBytes_length, if_neg hIV]; omega
    · have h2n : ¬(k.KeyFile.length + 1 ≤ c - (k.URL.length + 1)) := by
        rw [← hl1, ← hl2]; exact h2
      -- the KeyFile line write fails part-way
      simp only [WriteTo, write_limited, if_pos h1, if_neg h2]
      refine ⟨?_, ?_, ?_⟩
      · show (k.URL ++ [10]).length = completedCount k c
        simp only [completedCount, hl1]
        rw [if_neg (by omega), if_pos (by omega)]
      · show (r0 ++ (k.URL ++ [10])) ++
          (k.KeyFile ++ [10]).take (c - (k.URL ++ [10]).length) =
          r0 ++ (outBytes k).take c
        rw [outBytes_assoc, take_append_ge (k.URL ++ [10]) _ c h1,
          take_append_le (k.KeyFile ++ [10]) _ _ (by rw [hl1, hl2]; omega),
          List.append_assoc]
      · show true = decide ((outBytes k).length > c)
        rw [eq_comm, decide_eq_true_eq, outBytes_length]
        by_cases hIV : k.IV = [] <;> simp [hIV] <;> omega
  · have h1n : ¬(k.URL.length + 1 ≤ c) := by rw [← hl1]; exact h1
    -- the URL line write already fails part-way
    simp only [WriteTo, write_limited, if_neg h1]
    refine ⟨?_, ?_, ?_⟩
    · show (0 : Nat) = completedCount k c
      simp only [completedCount]
      rw [if_pos (by omega)]
    · show r0 ++ (k.URL ++ [10]).take c = r0 ++ (outBytes k).take c
      rw [outBytes_assoc, take_append_le (k.URL ++ [10]) _ c (by omega)]
    · show true = decide ((outBytes k).length > c)
      rw [eq_comm, decide_eq_true_eq, outBytes_length]
      by_cases hIV : k.IV = [] <;> simp [hIV] <;> omega

/-- C7: `Dispose` is idempotent — a second call right after a first one
(whatever the removal oracle then says) succeeds with no error and
changes nothing, the first call leaves both tracked paths empty, and
when the tracked files are already absent the first call itself
succeeds, absence being treated as success. -/
theorem Dispose_idempotent (fs : FS) (bad bad2 : GoStr → Bool)
    (k : KeyInfo) :
    Dispose ((Dispose fs bad k).1) bad2 ((Dispose fs bad k).2.1) =
      ((Dispose fs bad k).1, (Dispose fs bad k).2.1, []) ∧
    (Dispose fs bad k).2.1.KeyFile = [] ∧
    (Dispose fs bad k).2.1.infoFile = [] ∧
    (fs k.KeyFile = none → fs k.infoFile = none →
      (Dispose fs bad k).2.2 = []) := by
  refine ⟨rfl, rfl, rfl, fun hkf hinf => ?_⟩
  have h1 : removeTracked fs bad k.KeyFile = (fs, []) := by
    by_cases hkE : k.KeyFile = []
    · simp [removeTracked, hkE]
    · simp [removeTracked, hkE, osRemove, hkf]
  have h2 : removeTracked fs bad k.infoFile = (fs, []) := by
    by_cases hiE : k.infoFile = []
    · simp [removeTracked, hiE]
    · simp [removeTracked, hiE, osRemove, hinf]
  simp [Dispose, h1, h2]

theorem Dispose_idempotent_witness :
    Dispose ((Dispose (fun _ => none) (fun _ => false)
          ⟨[1], [2], [3], some [4], [5]⟩).1) (fun _ => true)
        ((Dispose (fun _ => none) (fun _ => false)
          ⟨[1], [2], [3], some [4], [5]⟩).2.1) =
      ((Dispose (fun _ => none) (fun _ => false)
          ⟨[1], [2], [3], some [4], [5]⟩).1,
        (Dispose (fun _ => none) (fun _ => false)
          ⟨[1], [2], [3], some [4], [5]⟩).2.1, []) ∧
    (Dispose (fun _ => none) (fun _ => false)
        ⟨[1], [2], [3], some [4], [5]⟩).2.1.KeyFile = [] ∧
    (Dispose (fun _ => none) (fun _ => false)
        ⟨[1], [2], [3], some [4], [5]⟩).2.1.infoFile = [] ∧
    (Dispose (fun _ => none) (fun _ => false)
        ⟨[1], [2], [3], some [4], [5]⟩).2.2 = [] := by
  have h := Dispose_idempotent (fun _ => none) (fun _ => false)
    (fun _ => true) ⟨[1], [2], [3], some [4], [5]⟩
  exact ⟨h.1, h.2.1, h.2.2.1, h.2.2.2 rfl rfl⟩

/-- C8: after `Dispose`, the `KeyFile` field (and the tracked
`infoFile`) is empty whatever the removal outcomes were; and when both
tracked files exist but their removals fail for a reason other than
absence, the reported failure aggregates both errors, not just the
first. -/
theorem Dispose_clears_and_aggregates (fs : FS) (bad : GoStr → Bool)
    (k : KeyInfo) :
    (Dispose fs bad k).2.1.KeyFile = [] ∧
    (Dispose fs bad k).2.1.infoFile = [] ∧
    (k.KeyFile ≠ [] → k.infoFile ≠ [] →
      (fs k.KeyFile).isSome = true → (fs k.infoFile).isSome = true →
      bad k.KeyFile = true → bad k.infoFile = true →
      (Dispose fs bad k).2.2 = [k.KeyFile, k.infoFile]) := by
  refine ⟨rfl, rfl, fun hk hi hfk hfi hbk hbi => ?_⟩
  obtain ⟨vk, hvk⟩ := Option.isSome_iff_exists.mp hfk
  obtain ⟨vi, hvi⟩ := Option.isSome_iff_exists.mp hfi
  have h1 : removeTracked fs bad k.KeyFile = (fs, [k.KeyFile]) := by
    simp [removeTracked, hk, osRemove, hvk, hbk]
  have h2 : removeTracked fs bad k.infoFile = (fs, [k.infoFile]) := by
    simp [removeTracked, hi, osRemove, hvi, hbi]
  simp [Dispose, h1, h2]

theorem Dispose_clears_and_aggregates_witness :
    (Dispose (fun _ => some [0]) (fun _ => true)
        ⟨[1], [2], [3], some [4], [5]⟩).2.1.KeyFile = [] ∧
    (Dispose (fun _ => some [0]) (fun _ => true)
        ⟨[1], [2], [3], some [4], [5]⟩).2.1.infoFile = [] ∧
    (Dispose (fun _ => some [0]) (fun _ => true)
        ⟨[1], [2], [3], some [4], [5]⟩).2.2 = [[2], [5]] := by
  have h := Dispose_clears_and_aggregates (fun _ => some [0])
    (fun _ => true) ⟨[1], [2], [3], some [4], [5]⟩
  exact ⟨h.1, h.2.1, h.2.2 (by decide) (by decide) rfl rfl rfl rfl⟩

/-- C9: when the key file has been created but the write of the 16 key
bytes fails, `NewKeyInfo` removes the file before returning the error:
construction fails, the created path holds no file afterwards, and the
filesystem differs from the initial one at most by that (removed)
path. -/
theorem NewKeyInfo_write_failure_cleanup (url p : GoStr)
    (stream : Nat → Nat) (fs : FS) :
    (NewKeyInfo url true stream (some p) false fs).1 = none ∧
    (NewKeyInfo url true stream (some p) false fs).2 p = none ∧
    (NewKeyInfo url true stream (some p) false fs).2 = FS.update fs p none := by
  refine ⟨rfl, ?_, ?_⟩
  · simp [NewKeyInfo, FS.update]
  · funext q
    by_cases hq : q = p <;> simp [NewKeyInfo, FS.update, hq]

/-- C10: `Dispose` touches only the file-path fields — for a descriptor
obtained from a successful construction, the key, the URL and the IV
survive `Dispose` unchanged, and `GetKey` afterwards still returns a
copy of the same 16 key bytes generated at construction. -/
theorem Dispose_frame (url p : GoStr) (stream : Nat → Nat) (fs : FS)
    (bad : GoStr → Bool) (k : KeyInfo)
    (hk : (NewKeyInfo url true stream (some p) true fs).1 = some k) :
    (Dispose (NewKeyInfo url true stream (some p) true fs).2 bad k).2.1.key =
      k.key ∧
    (Dispose (NewKeyInfo url true stream (some p) true fs).2 bad k).2.1.URL =
      k.URL ∧
    (Dispose (NewKeyInfo url true stream (some p) true fs).2 bad k).2.1.IV =
      k.IV ∧
    GetKey (Dispose (NewKeyInfo url true stream (some p) true fs).2 bad
        k).2.1 = some (rand16 stream) ∧
    (rand16 stream).length = 16 ∧
    GetKey (Dispose (NewKeyInfo url true stream (some p) true fs).2 bad
        k).2.1 = GetKey k := by
  have hkeq : k = ⟨url, p, [], some (rand16 stream), []⟩ :=
    (Option.some.inj hk).symm
  subst hkeq
  exact ⟨rfl, rfl, rfl, rfl, by simp [rand16], rfl⟩

theorem Dispose_frame_witness :
    (Dispose (NewKeyInfo [117] true (fun i => i) (some [112]) true
          (fun _ => none)).2 (fun _ => false)
        ⟨[117], [112], [], some (rand16 (fun i => i)), []⟩).2.1.key =
      KeyInfo.key ⟨[117], [112], [], some (rand16 (fun i => i)), []⟩ ∧
    (Dispose (NewKeyInfo [117] true (fun i => i) (some [112]) true
          (fun _ => none)).2 (fun _ => false)
        ⟨[117], [112], [], some (rand16 (fun i => i)), []⟩).2.1.URL =
      KeyInfo.URL ⟨[117], [112], [], some (rand16 (fun i => i)), []⟩ ∧
    (Dispose (NewKeyInfo [117] true (fun i => i) (some [112]) true
          (fun _ => none)).2 (fun _ => false)
        ⟨[117], [112], [], some (rand16 (fun i => i)), []⟩).2.1.IV =
      KeyInfo.IV ⟨[117], [112], [], some (rand16 (fun i => i)), []⟩ ∧
    GetKey (Dispose (NewKeyInfo [117] true (fun i => i) (some [112]) true
          (fun _ => none)).2 (fun _ => false)
        ⟨[117], [112], [], some (rand16 (fun i => i)), []⟩).2.1 =
      some (rand16 (fun i => i)) ∧
    (rand16 (fun i => i)).length = 16 ∧
    GetKey (Dispose (NewKeyInfo [117] true (fun i => i) (some [112]) true
          (fun _ => none)).2 (fun _ => false)
        ⟨[117], [112], [], some (rand16 (fun i => i)), []⟩).2.1 =
      GetKey ⟨[117], [112], [], some (rand16 (fun i => i)), []⟩ :=
  Dispose_frame [117] [112] (fun i => i) (fun _ => none) (fun _ => false)
    ⟨[117], [112], [], some (rand16 (fun i => i)), []⟩ rfl

end HLSKeyInfo
